import Mathlib

/-!
Shallow embedding of the uuidv9-go library (src/uuidv9.go) over `List Char`.

Strings are modelled as `List Char`; Go byte values as `Nat` with explicit
`% 256` where overflow matters.  The two nondeterministic inputs of the
encoder (the current wall clock and the entropy source) are passed as
explicit parameters: `nowMs : Nat` is the millisecond UNIX timestamp read
by `time.Now`, `src : Nat -> Nat` yields the bytes produced by `rand.Read`
(byte `i` of a request is `src i % 256`), and `vsrc : Nat` is the draw
used by `randomChar` for the legacy variant digit.  Fallible indexing in
the validators is modelled with `Option`.
-/

namespace UUIDv9Go

/-- Convert a string literal to the `List Char` representation used throughout. -/
def chars (s : String) : List Char :=
  s.toList

/-- Character class [0-9a-fA-F] used by both regexes of the source. -/
def isHexDigit (c : Char) : Bool :=
  (48 ≤ c.toNat && c.toNat ≤ 57) || (97 ≤ c.toNat && c.toNat ≤ 102) ||
    (65 ≤ c.toNat && c.toNat ≤ 70)

/-- Lowercase hex characters: the digits and a-f (what the encoder emits). -/
def isLowerHexDigit (c : Char) : Bool :=
  (48 ≤ c.toNat && c.toNat ≤ 57) || (97 ≤ c.toNat && c.toNat ≤ 102)

/-- Value of a hex digit, as decoded by Go's encoding/hex. -/
def hexVal (c : Char) : Nat :=
  if 48 ≤ c.toNat && c.toNat ≤ 57 then c.toNat - 48
  else if 97 ≤ c.toNat && c.toNat ≤ 102 then c.toNat - 97 + 10
  else if 65 ≤ c.toNat && c.toNat ≤ 70 then c.toNat - 65 + 10
  else 0

/-- Lowercase hex digit character for a value below 16 (Go's %x rendering). -/
def hexCharLower (n : Nat) : Char :=
  if n < 10 then Char.ofNat (48 + n) else Char.ofNat (97 + n - 10)

/-- Render a byte as exactly two lowercase hex digits (Go's %02x on a byte). -/
def toHex2 (n : Nat) : List Char :=
  [hexCharLower (n / 16 % 16), hexCharLower (n % 16)]

/-- Decode a hex string into bytes two digits at a time, failing on odd
length or a non-hex character, exactly as `hex.Decode` does. -/
def decodeHexPairs : List Char → Option (List Nat)
  | [] => some []
  | [_] => none
  | a :: b :: rest =>
    if isHexDigit a && isHexDigit b then
      (decodeHexPairs rest).map (fun l => (hexVal a * 16 + hexVal b) :: l)
    else none

/-- One shift of the CRC-8 register: multiply by x and reduce by the
polynomial 0x07 when the top bit was set (source lines 29-35). -/
def crcShiftStep (crc : Nat) : Nat :=
  if 128 ≤ crc then ((crc * 2) % 256) ^^^ 7 else (crc * 2) % 256

/-- Process one byte: xor it into the register, then shift eight times
(the inner loop of `calcChecksum`). -/
def crc8Update (crc b : Nat) : Nat :=
  (List.range 8).foldl (fun c _ => crcShiftStep c) (crc ^^^ b)

/-- Embedding of `calcChecksum` (src/uuidv9.go lines 15-42): decode the hex
string to bytes, run CRC-8 with polynomial 0x07 and seed 0x00 over them,
and render the result as two lowercase hex digits; on a decode error the
source returns the default "00". -/
def calcChecksum (hexString : List Char) : List Char :=
  match decodeHexPairs hexString with
  | none => ['0', '0']
  | some data => toHex2 ((data.foldl crc8Update 0) % 256)

/-- Hex rendering of a natural number, most significant digit first, no
leading zeros, "0" for zero (Go's %x on a non-negative integer).  The
first argument is recursion fuel, always called with fuel at least n. -/
def natToHexAux : Nat → Nat → List Char → List Char
  | 0, _, acc => acc
  | fuel + 1, n, acc =>
    if n = 0 then acc else natToHexAux fuel (n / 16) (hexCharLower (n % 16) :: acc)

/-- Go's `fmt.Sprintf("%x", n)` for a non-negative integer. -/
def natToHex (n : Nat) : List Char :=
  if n = 0 then ['0'] else natToHexAux n n []

/-- Decimal rendering helper, fuel-based like `natToHexAux`. -/
def natToDecAux : Nat → Nat → List Char → List Char
  | 0, _, acc => acc
  | fuel + 1, n, acc =>
    if n = 0 then acc else natToDecAux fuel (n / 10) (Char.ofNat (48 + n % 10) :: acc)

/-- Go's `fmt.Sprint(n)` for an integer (used by `checkVersion` on the
optional expected version number). -/
def intToDec (n : Int) : List Char :=
  if n < 0 then '-' :: (if n.natAbs = 0 then ['0'] else natToDecAux n.natAbs n.natAbs [])
  else if n.toNat = 0 then ['0'] else natToDecAux n.toNat n.toNat []

/-- Embedding of the anchored, case-insensitive pattern
`^[0-9a-f]{8}-[0-9a-f]{4}-[0-9a-f]{4}-[0-9a-f]{4}-[0-9a-f]{12}$`
(`uuidRegex`, src/uuidv9.go line 13): 36 characters, dashes at positions
8, 13, 18, 23, hex digits everywhere else. -/
def uuidRegexMatch (s : List Char) : Bool :=
  s.length == 36 && (s.take 8).all isHexDigit && s.getD 8 ' ' == '-' &&
    ((s.drop 9).take 4).all isHexDigit && s.getD 13 ' ' == '-' &&
    ((s.drop 14).take 4).all isHexDigit && s.getD 18 ' ' == '-' &&
    ((s.drop 19).take 4).all isHexDigit && s.getD 23 ' ' == '-' &&
    (s.drop 24).all isHexDigit

/-- Embedding of `isUUID` (src/uuidv9.go lines 95-97). -/
def isUUID (s : List Char) : Bool :=
  uuidRegexMatch s

/-- Remove every dash, as `strings.ReplaceAll(uuid, "-", "")` does. -/
def undash (s : List Char) : List Char :=
  s.filter (fun c => c != '-')

/-- Embedding of `verifyChecksum` (src/uuidv9.go lines 44-74).  The
fixed-offset slice `uuid[34:36]` is modelled with fallible indexing, so
the result is `none` exactly when Go would panic out of bounds. -/
def verifyChecksum (uuid : List Char) : Option Bool :=
  if !uuidRegexMatch uuid then some false
  else
    let cleanUuid := undash uuid
    if cleanUuid.length < 32 then some false
    else
      match uuid.get? 34, uuid.get? 35 with
      | some a, some b => some (calcChecksum (cleanUuid.take 30) == [a, b])
      | _, _ => none

/-- Embedding of `checkVersion` (src/uuidv9.go lines 76-93).  The
unguarded slices `uuid[14:15]` and `uuid[19:20]` are modelled with
fallible indexing. -/
def checkVersion (uuid : List Char) (version : Option Int) : Option Bool :=
  match uuid.get? 14, uuid.get? 19 with
  | some versionDigit, some variantDigit =>
    match version with
    | none =>
      some (versionDigit == '9' ||
        ((versionDigit == '1' || versionDigit == '4') &&
          (chars "89abAB").contains variantDigit))
    | some v =>
      let versionStr := intToDec v
      if [versionDigit] == versionStr then
        if versionStr == ['1'] || versionStr == ['4'] then
          some ((chars "89abAB").contains variantDigit)
        else some true
      else some false
  | _, _ => none

/-- Options of the validator (`validateUUIDv9Options`, src/uuidv9.go
lines 99-102). -/
structure validateUUIDv9Options where
  Checksum : Bool
  Version : Bool

/-- Embedding of `isValidUUIDv9` (src/uuidv9.go lines 104-115). -/
def isValidUUIDv9 (uuid : List Char) (options : validateUUIDv9Options) : Option Bool :=
  if !isUUID uuid then some false
  else
    match (if options.Checksum then verifyChecksum uuid else some true) with
    | none => none
    | some okCs =>
      if !okCs then some false
      else
        match (if options.Version then checkVersion uuid none else some true) with
        | none => none
        | some okV => if !okV then some false else some true

/-- Embedding of `randomBytes` (src/uuidv9.go lines 117-124): `count`
random bytes rendered with %x, two lowercase hex digits per byte.  The
entropy source is the explicit parameter `src`. -/
def randomBytes (count : Nat) (src : Nat → Nat) : List Char :=
  (List.range count).flatMap (fun i => toHex2 (src i % 256))

/-- Embedding of `randomChar` (src/uuidv9.go lines 130-134): pick one
character of `cs` at an index drawn uniformly from `[0, cs.length)`; the
draw is the explicit parameter `r`. -/
def randomChar (cs : List Char) (r : Nat) : Char :=
  cs.getD (r % cs.length) ' '

/-- Embedding of the pattern `^[0-9a-fA-F]+$` (`base16Regex`,
src/uuidv9.go line 136) and `isBase16`. -/
def isBase16 (s : List Char) : Bool :=
  !s.isEmpty && s.all isHexDigit

/-- Embedding of `validatePrefix` (src/uuidv9.go lines 142-150). -/
def validatePfx (p : List Char) : Except String Unit :=
  if 8 < p.length then Except.error "must be no more than 8 characters"
  else if !isBase16 p then Except.error "must be only hexadecimal characters"
  else Except.ok ()

/-- ASCII lowercasing of one character, the effect of `strings.ToLower`
on the validated (hence ASCII) input it receives here. -/
def toLowerChar (c : Char) : Char :=
  if 65 ≤ c.toNat && c.toNat ≤ 90 then Char.ofNat (c.toNat + 32) else c

/-- Clamp a string to exactly 32 characters: truncate when longer, pad
with '0' on the right when shorter (first half of `addDashes`,
src/uuidv9.go lines 153-158). -/
def norm32 (s : List Char) : List Char :=
  if 32 < s.length then s.take 32 else s ++ List.replicate (32 - s.length) '0'

/-- Splice dashes into a 32-character string in the 8-4-4-4-12 pattern
(second half of `addDashes`, line 159). -/
def withDashes (t : List Char) : List Char :=
  t.take 8 ++ '-' :: ((t.drop 8).take 4 ++ '-' :: ((t.drop 12).take 4 ++
    '-' :: ((t.drop 16).take 4 ++ '-' :: t.drop 20)))

/-- Embedding of `addDashes` (src/uuidv9.go lines 152-160). -/
def addDashes (s : List Char) : List Char :=
  withDashes (norm32 s)

/-- The dynamic `Timestamp interface{}` option: Go only ever compares it
to `nil`, `true` and `false`; a custom integer or `time.Time` instant is
any other value. -/
inductive GoTimestamp where
  | tsNil : GoTimestamp
  | tsTrue : GoTimestamp
  | tsFalse : GoTimestamp
  | tsInt : Int → GoTimestamp
  | tsTime : Int → GoTimestamp
deriving DecidableEq

/-- Options of the encoder (`UUIDv9Options`, src/uuidv9.go lines 162-168);
`Pfx` stands for the `Prefix` field. -/
structure UUIDv9Options where
  Pfx : List Char
  Timestamp : GoTimestamp
  Checksum : Bool
  Version : Bool
  Legacy : Bool

/-- Defaulting of the timestamp option: `nil` becomes `true`
(src/uuidv9.go lines 193-195). -/
def resolveTs : GoTimestamp → GoTimestamp
  | .tsNil => .tsTrue
  | t => t

/-- The time component: the hex rendering of the current millisecond
timestamp when the (defaulted) option equals `true`, empty otherwise
(src/uuidv9.go lines 206-211). -/
def uuidv9Center (t : GoTimestamp) (nowMs : Nat) : List Char :=
  if resolveTs t = .tsTrue then natToHex nowMs else []

/-- The random-fill length computation (src/uuidv9.go lines 215-231):
Go int arithmetic with the final clamp at zero. -/
def fillLen (pLen cLen : Nat) (checksum legacy version : Bool) : Int :=
  let l : Int := 32 - (pLen : Int) - (cLen : Int)
  let l := if checksum then l - 2 else l
  let l := if legacy then l - 2 else if version then l - 1 else l
  if l < 0 then 0 else l

/-- The concatenation `prefix + center + suffix` (src/uuidv9.go lines
213-240), with the prefix lowercased as the source does after
validation. -/
def uuidv9Joined (o : UUIDv9Options) (nowMs : Nat) (src : Nat → Nat) : List Char :=
  let p := o.Pfx.map toLowerChar
  let c := uuidv9Center o.Timestamp nowMs
  let l := (fillLen p.length c.length o.Checksum o.Legacy o.Version).toNat
  p ++ c ++ randomBytes (l / 2) src

/-- Left zero-padding to a given width (the defensive
`fmt.Sprintf("%0*s", w, joined)` branches of the marker code; dead on
every reachable path). -/
def padLeftZero (w : Nat) (s : List Char) : List Char :=
  List.replicate (w - s.length) '0' ++ s

/-- Overwrite the character at `pos`: keep everything before it, drop the
character at `pos`, keep everything after (the part1/part2 splicing of
src/uuidv9.go lines 248-267 and 270-286, including the defensive
padding). -/
def setAt (pos : Nat) (c : Char) (s : List Char) : List Char :=
  let s := if s.length < pos + 1 then padLeftZero (pos + 1) s else s
  let part1 := s.take pos
  let part2 := if pos < s.length then s.drop (pos + 1) else []
  part1 ++ c :: part2

/-- The version / legacy marker edits (src/uuidv9.go lines 242-306):
legacy first overwrites position 12 with '1' ('4' when the timestamp
option is `false`) and then position 16 with the random variant digit;
otherwise a requested version overwrites position 12 with '9'. -/
def applyMarkers (o : UUIDv9Options) (vchar : Char) (j : List Char) : List Char :=
  if o.Legacy then
    let timeChar := if resolveTs o.Timestamp = .tsFalse then '4' else '1'
    setAt 16 vchar (setAt 12 timeChar j)
  else if o.Version then setAt 12 '9' j
  else j

/-- The 32 undashed hex digits of the identifier the encoder returns:
the normalized marked concatenation, with its last two digits replaced by
the checksum when requested. -/
def uuidv9Core (o : UUIDv9Options) (nowMs : Nat) (src : Nat → Nat) (vsrc : Nat) : List Char :=
  let j := applyMarkers o (randomChar (chars "89ab") vsrc) (uuidv9Joined o nowMs src)
  let t := norm32 j
  if o.Checksum then t.take 30 ++ calcChecksum (t.take 30) else t

/-- Embedding of `UUIDv9` (src/uuidv9.go lines 178-324). -/
def UUIDv9 (o : UUIDv9Options) (nowMs : Nat) (src : Nat → Nat) (vsrc : Nat) :
    Except String (List Char) :=
  match (if o.Pfx.isEmpty then Except.ok () else validatePfx o.Pfx) with
  | .error e => .error e
  | .ok _ =>
    let joined := applyMarkers o (randomChar (chars "89ab") vsrc) (uuidv9Joined o nowMs src)
    let uuidWithoutChecksum := addDashes joined
    if o.Checksum then
      let cleanUuid := undash uuidWithoutChecksum
      let checksum := calcChecksum (cleanUuid.take 30)
      .ok (uuidWithoutChecksum.take 34 ++ checksum)
    else .ok uuidWithoutChecksum

/-- Validity of the prefix option as the encoder checks it: empty strings
skip validation, otherwise `validatePrefix` must accept. -/
def pfxValid (p : List Char) : Bool :=
  p.isEmpty || (decide (p.length ≤ 8) && isBase16 p)

/-- Reference CRC-8 step from the spec's words: feed one message bit,
MSB-first, into a standard bit-serial polynomial division with polynomial
0x07 and no reflection: shift the register, and subtract (xor) the
polynomial when the shifted-out bit xor the incoming bit is one. -/
def refCrc8Bit (crc b : Nat) : Nat :=
  if (crc / 128 + b) % 2 = 1 then ((crc * 2) % 256) ^^^ 7 else (crc * 2) % 256

/-- The eight bits of a byte, most significant first. -/
def byteBits (b : Nat) : List Nat :=
  [b / 128 % 2, b / 64 % 2, b / 32 % 2, b / 16 % 2, b / 8 % 2, b / 4 % 2, b / 2 % 2, b % 2]

/-- Reference CRC-8 over a byte sequence: bit-serial division of the whole
message, seed 0x00, no final xor. -/
def refCrc8 (data : List Nat) : Nat :=
  (data.flatMap byteBits).foldl refCrc8Bit 0

/-- Reference checksum from the spec's words: CRC-8 over the binary value
decoded from the hex digit pairs, rendered as two lowercase hex digits. -/
def refCalcChecksum (hexString : List Char) : List Char :=
  match decodeHexPairs hexString with
  | none => ['0', '0']
  | some data => toHex2 (refCrc8 data)

/-- The number of hex digits the options reserve beyond prefix and center:
two for a checksum, plus two for legacy marking or one for version
marking (the claim's reservation arithmetic). -/
def adjLen (o : UUIDv9Options) : Nat :=
  (if o.Checksum then 2 else 0) + (if o.Legacy then 2 else if o.Version then 1 else 0)

set_option maxRecDepth 4096 in
theorem toNat_ofNat_small : ∀ n, n < 256 → (Char.ofNat n).toNat = n := by decide

theorem lowerHex_isHex {c : Char} (h : isLowerHexDigit c = true) : isHexDigit c = true := by
  simp only [isLowerHexDigit, isHexDigit, Bool.or_eq_true, Bool.and_eq_true,
    decide_eq_true_eq] at h ⊢
  omega

theorem hex_ne_dash {c : Char} (h : isHexDigit c = true) : (c != '-') = true := by
  simp only [bne_iff_ne, ne_eq]
  intro he
  subst he
  exact absurd h (by decide)

theorem hexCharLower_lower : ∀ n, n < 16 → isLowerHexDigit (hexCharLower n) = true := by decide

theorem toLowerChar_hex {c : Char} (h : isHexDigit c = true) :
    isLowerHexDigit (toLowerChar c) = true := by
  simp only [isHexDigit, Bool.or_eq_true, Bool.and_eq_true, decide_eq_true_eq] at h
  unfold toLowerChar
  rcases h with (h | h) | h
  · rw [if_neg (by simp only [Bool.and_eq_true, decide_eq_true_eq]; omega)]
    simp only [isLowerHexDigit, Bool.or_eq_true, Bool.and_eq_true, decide_eq_true_eq]
    omega
  · rw [if_neg (by simp only [Bool.and_eq_true, decide_eq_true_eq]; omega)]
    simp only [isLowerHexDigit, Bool.or_eq_true, Bool.and_eq_true, decide_eq_true_eq]
    omega
  · rw [if_pos (by simp only [Bool.and_eq_true, decide_eq_true_eq]; omega)]
    have hv : (Char.ofNat (c.toNat + 32)).toNat = c.toNat + 32 :=
      toNat_ofNat_small _ (by omega)
    simp only [isLowerHexDigit, Bool.or_eq_true, Bool.and_eq_true, decide_eq_true_eq, hv]
    omega

theorem toHex2_lower (n : Nat) : (toHex2 n).all isLowerHexDigit = true := by
  simp only [toHex2, List.all_cons, List.all_nil, Bool.and_eq_true, Bool.and_true]
  exact ⟨hexCharLower_lower _ (Nat.mod_lt _ (by norm_num)),
    hexCharLower_lower _ (Nat.mod_lt _ (by norm_num))⟩

theorem toHex2_length (n : Nat) : (toHex2 n).length = 2 := rfl

theorem all_sub {p : Char → Bool} {l l' : List Char} (hsub : l' ⊆ l)
    (h : l.all p = true) : l'.all p = true := by
  simp only [List.all_eq_true] at h ⊢
  exact fun x hx => h x (hsub hx)

theorem all_lower_imp_hex {l : List Char} (h : l.all isLowerHexDigit = true) :
    l.all isHexDigit = true := by
  simp only [List.all_eq_true] at h ⊢
  exact fun x hx => lowerHex_isHex (h x hx)

theorem undash_of_hex {s : List Char} (h : s.all isHexDigit = true) : undash s = s := by
  apply List.filter_eq_self.mpr
  simp only [List.all_eq_true] at h
  exact fun a ha => hex_ne_dash (h a ha)

theorem calcChecksum_length (s : List Char) : (calcChecksum s).length = 2 := by
  unfold calcChecksum
  cases decodeHexPairs s <;> rfl

theorem calcChecksum_lower (s : List Char) : (calcChecksum s).all isLowerHexDigit = true := by
  unfold calcChecksum
  cases decodeHexPairs s
  · decide
  · exact toHex2_lower _

theorem natToHexAux_lower : ∀ fuel n acc, acc.all isLowerHexDigit = true →
    (natToHexAux fuel n acc).all isLowerHexDigit = true := by
  intro fuel
  induction fuel with
  | zero => intro n acc h; exact h
  | succ f ih =>
    intro n acc h
    unfold natToHexAux
    split
    · exact h
    · exact ih _ _ (by
        simp only [List.all_cons, Bool.and_eq_true]
        exact ⟨hexCharLower_lower _ (Nat.mod_lt _ (by norm_num)), h⟩)

theorem natToHex_lower (n : Nat) : (natToHex n).all isLowerHexDigit = true := by
  unfold natToHex
  split
  · decide
  · exact natToHexAux_lower _ _ _ rfl

theorem randomBytes_length (count : Nat) (src : Nat → Nat) :
    (randomBytes count src).length = 2 * count := by
  induction count with
  | zero => rfl
  | succ k ih =>
    unfold randomBytes at ih ⊢
    rw [List.range_succ, List.flatMap_append, List.length_append, ih]
    simp only [List.flatMap_cons, List.flatMap_nil, List.append_nil, toHex2_length]
    omega

theorem randomBytes_lower (count : Nat) (src : Nat → Nat) :
    (randomBytes count src).all isLowerHexDigit = true := by
  induction count with
  | zero => rfl
  | succ k ih =>
    unfold randomBytes at ih ⊢
    rw [List.range_succ, List.flatMap_append, List.all_append]
    simp only [List.flatMap_cons, List.flatMap_nil, List.append_nil, ih, Bool.true_and]
    exact toHex2_lower _

theorem norm32_length (s : List Char) : (norm32 s).length = 32 := by
  unfold norm32
  split
  · simp only [List.length_take]
    omega
  · simp only [List.length_append, List.length_replicate]
    omega

theorem norm32_all_hex {s : List Char} (h : s.all isHexDigit = true) :
    (norm32 s).all isHexDigit = true := by
  unfold norm32
  split
  · exact all_sub (List.take_subset _ _) h
  · rw [List.all_append, h, Bool.true_and]
    simp only [List.all_eq_true, List.mem_replicate]
    intro x hx
    rw [hx.2]
    decide

theorem norm32_of_le {s : List Char} (h : s.length ≤ 32) :
    norm32 s = s ++ List.replicate (32 - s.length) '0' := by
  unfold norm32
  rw [if_neg (by omega)]

theorem norm32_getElem? {s : List Char} {i : Nat} (hi : i < 32) (hs : i < s.length) :
    (norm32 s)[i]? = s[i]? := by
  unfold norm32
  split
  · exact List.getElem?_take_of_lt hi
  · exact List.getElem?_append_left hs

theorem norm32_take {s : List Char} {i : Nat} (hi : i ≤ 32) (hs : i ≤ s.length) :
    (norm32 s).take i = s.take i := by
  unfold norm32
  split
  · rw [List.take_take, Nat.min_eq_left hi]
  · exact List.take_append_of_le_length hs

theorem withDashes_length {t : List Char} (ht : t.length = 32) :
    (withDashes t).length = 36 := by
  simp only [withDashes, List.length_append, List.length_cons, List.length_take,
    List.length_drop, ht]
  omega

theorem undash_withDashes {t : List Char} (hall : t.all isHexDigit = true) :
    undash (withDashes t) = t := by
  have hsegs : ∀ l : List Char, l ⊆ t → undash l = l := fun l hl =>
    undash_of_hex (all_sub hl hall)
  have h20 : (t.drop 16).drop 4 = t.drop 20 := by simp
  have h16 : (t.drop 12).drop 4 = t.drop 16 := by simp
  have h12 : (t.drop 8).drop 4 = t.drop 12 := by simp
  simp only [undash, withDashes, List.filter_append, List.filter_cons]
  norm_num
  rw [← undash, ← undash, ← undash, ← undash, ← undash,
    hsegs _ (List.take_subset _ _),
    hsegs _ (List.Subset.trans (List.take_subset _ _) (List.drop_subset _ _)),
    hsegs _ (List.Subset.trans (List.take_subset _ _) (List.drop_subset _ _)),
    hsegs _ (List.Subset.trans (List.take_subset _ _) (List.drop_subset _ _)),
    hsegs _ (List.drop_subset _ _)]
  rw [← h20, List.take_append_drop, ← h16, List.take_append_drop,
    ← h12, List.take_append_drop, List.take_append_drop]


theorem withDashes_flat (t : List Char) : withDashes t =
    t.take 8 ++ (['-'] ++ ((t.drop 8).take 4 ++ (['-'] ++ ((t.drop 12).take 4 ++
      (['-'] ++ ((t.drop 16).take 4 ++ (['-'] ++ t.drop 20))))))) := rfl

theorem regex_withDashes {t : List Char} (ht : t.length = 32) (hall : t.all isHexDigit = true) :
    uuidRegexMatch (withDashes t) = true := by
  have H := List.all_eq_true.mp hall
  rw [withDashes_flat]
  simp only [uuidRegexMatch, List.take_append_eq_append_take,
    List.drop_append_eq_append_drop, List.getElem?_append, List.length_take,
    List.length_drop, ht, List.take_take, List.drop_drop, List.getElem?_drop,
    List.getD_eq_getElem?_getD, List.length_append, List.length_cons,
    List.length_nil, List.all_append, List.all_eq_true]
  norm_num
  repeat' constructor
  all_goals intro x hx
  all_goals (repeat first
    | replace hx := List.mem_of_mem_take hx
    | replace hx := List.mem_of_mem_drop hx)
  all_goals exact H x hx

theorem withDashes_take34 {t : List Char} (ht : t.length = 32) (cs : List Char) :
    (withDashes t).take 34 ++ cs = withDashes (t.take 30 ++ cs) := by
  rw [withDashes_flat, withDashes_flat]
  simp only [List.take_append_eq_append_take, List.drop_append_eq_append_drop,
    List.length_take, List.length_drop, List.length_append, ht,
    List.take_take, List.drop_drop, List.drop_take, List.length_cons, List.length_nil]
  norm_num

theorem withDashes_getElem?_14 {t : List Char} (ht : t.length = 32) :
    (withDashes t)[14]? = t[12]? := by
  rw [withDashes_flat]
  simp only [List.getElem?_append, List.length_take, List.length_drop, ht,
    List.length_cons, List.length_nil, List.getElem?_take_of_lt, List.getElem?_drop]
  norm_num

theorem withDashes_getElem?_19 {t : List Char} (ht : t.length = 32) :
    (withDashes t)[19]? = t[16]? := by
  rw [withDashes_flat]
  simp only [List.getElem?_append, List.length_take, List.length_drop, ht,
    List.length_cons, List.length_nil, List.getElem?_take_of_lt, List.getElem?_drop]
  norm_num

theorem withDashes_getElem?_34 {t : List Char} (ht : t.length = 32) :
    (withDashes t)[34]? = t[30]? := by
  rw [withDashes_flat]
  simp only [List.getElem?_append, List.length_take, List.length_drop, ht,
    List.length_cons, List.length_nil, List.getElem?_take_of_lt, List.getElem?_drop]
  norm_num

theorem withDashes_getElem?_35 {t : List Char} (ht : t.length = 32) :
    (withDashes t)[35]? = t[31]? := by
  rw [withDashes_flat]
  simp only [List.getElem?_append, List.length_take, List.length_drop, ht,
    List.length_cons, List.length_nil, List.getElem?_take_of_lt, List.getElem?_drop]
  norm_num

theorem regex_structure {u : List Char} (h : uuidRegexMatch u = true) :
    ∃ t : List Char, t.length = 32 ∧ t.all isHexDigit = true ∧ u = withDashes t := by
  simp only [uuidRegexMatch, Bool.and_eq_true, beq_iff_eq, List.all_eq_true,
    List.getD_eq_getElem?_getD] at h
  obtain ⟨⟨⟨⟨⟨⟨⟨⟨⟨l36, hx1⟩, d8⟩, hx2⟩, d13⟩, hx3⟩, d18⟩, hx4⟩, d23⟩, hx5⟩ := h
  have g8 : u[8]? = some '-' := by
    rw [List.getElem?_eq_getElem (by omega)] at d8 ⊢
    simp only [Option.getD_some] at d8
    rw [d8]
  have g13 : u[13]? = some '-' := by
    rw [List.getElem?_eq_getElem (by omega)] at d13 ⊢
    simp only [Option.getD_some] at d13
    rw [d13]
  have g18 : u[18]? = some '-' := by
    rw [List.getElem?_eq_getElem (by omega)] at d18 ⊢
    simp only [Option.getD_some] at d18
    rw [d18]
  have g23 : u[23]? = some '-' := by
    rw [List.getElem?_eq_getElem (by omega)] at d23 ⊢
    simp only [Option.getD_some] at d23
    rw [d23]
  refine ⟨u.take 8 ++ ((u.drop 9).take 4 ++ ((u.drop 14).take 4 ++
    ((u.drop 19).take 4 ++ u.drop 24))), ?_, ?_, ?_⟩
  · simp only [List.length_append, List.length_take, List.length_drop, l36]
    norm_num
  · simp only [List.all_append, Bool.and_eq_true, List.all_eq_true]
    exact ⟨hx1, hx2, hx3, hx4, hx5⟩
  · rw [withDashes_flat]
    simp only [List.take_append_eq_append_take, List.drop_append_eq_append_drop,
      List.length_take, List.length_drop, List.length_append, l36,
      List.take_take, List.drop_drop, List.drop_take]
    norm_num
    conv_lhs => rw [← List.take_append_drop 8 u]
    congr 1
    rw [List.drop_eq_getElem_cons (show 8 < u.length by omega)]
    congr 1
    · simpa [List.getElem?_eq_getElem (show 8 < u.length by omega)] using g8
    show u.drop (8 + 1) = _
    norm_num
    conv_lhs => rw [← List.take_append_drop 4 (u.drop 9)]
    congr 1
    rw [show (u.drop 9).drop 4 = u.drop 13 by simp]
    rw [List.drop_eq_getElem_cons (show 13 < u.length by omega)]
    congr 1
    · simpa [List.getElem?_eq_getElem (show 13 < u.length by omega)] using g13
    show u.drop (13 + 1) = _
    norm_num
    conv_lhs => rw [← List.take_append_drop 4 (u.drop 14)]
    congr 1
    rw [show (u.drop 14).drop 4 = u.drop 18 by simp]
    rw [List.drop_eq_getElem_cons (show 18 < u.length by omega)]
    congr 1
    · simpa [List.getElem?_eq_getElem (show 18 < u.length by omega)] using g18
    show u.drop (18 + 1) = _
    norm_num
    conv_lhs => rw [← List.take_append_drop 4 (u.drop 19)]
    congr 1
    rw [show (u.drop 19).drop 4 = u.drop 23 by simp]
    rw [List.drop_eq_getElem_cons (show 23 < u.length by omega)]
    congr 1
    simpa [List.getElem?_eq_getElem (show 23 < u.length by omega)] using g23



theorem setAt_of_lt {pos : Nat} {s : List Char} (h : pos < s.length) (c : Char) :
    setAt pos c s = s.take pos ++ c :: s.drop (pos + 1) := by
  unfold setAt
  simp only [if_neg (show ¬s.length < pos + 1 by omega), if_pos h]

theorem setAt_length {pos : Nat} {s : List Char} (h : pos < s.length) (c : Char) :
    (setAt pos c s).length = s.length := by
  rw [setAt_of_lt h]
  simp only [List.length_append, List.length_take, List.length_cons, List.length_drop]
  omega

theorem setAt_getElem?_self {pos : Nat} {s : List Char} (h : pos < s.length) (c : Char) :
    (setAt pos c s)[pos]? = some c := by
  rw [setAt_of_lt h]
  rw [List.getElem?_append_right (by simp only [List.length_take]; omega)]
  simp only [List.length_take, Nat.min_eq_left (Nat.le_of_lt h), Nat.sub_self,
    List.getElem?_cons_zero]

theorem setAt_getElem?_lt {pos i : Nat} {s : List Char} (h : pos < s.length)
    (hi : i < pos) (c : Char) : (setAt pos c s)[i]? = s[i]? := by
  rw [setAt_of_lt h]
  rw [List.getElem?_append_left (by simp only [List.length_take]; omega)]
  exact List.getElem?_take_of_lt hi

theorem setAt_getElem?_gt {pos i : Nat} {s : List Char} (h : pos < s.length)
    (hi : pos < i) (c : Char) : (setAt pos c s)[i]? = s[i]? := by
  rw [setAt_of_lt h]
  rw [List.getElem?_append_right (by simp only [List.length_take]; omega)]
  rw [List.length_take, Nat.min_eq_left (Nat.le_of_lt h)]
  rw [show i - pos = (i - pos - 1) + 1 by omega, List.getElem?_cons_succ,
    List.getElem?_drop]
  rw [show pos + 1 + (i - pos - 1) = i by omega]

theorem setAt_take {pos i : Nat} {s : List Char} (h : pos < s.length)
    (hi : i ≤ pos) (c : Char) : (setAt pos c s).take i = s.take i := by
  rw [setAt_of_lt h]
  rw [List.take_append_of_le_length (by simp only [List.length_take]; omega)]
  rw [List.take_take, Nat.min_eq_left hi]

theorem setAt_all_hex {pos : Nat} {s : List Char} {c : Char}
    (hc : isHexDigit c = true) (hs : s.all isHexDigit = true) :
    (setAt pos c s).all isHexDigit = true := by
  unfold setAt padLeftZero
  have hrep : ∀ n, (List.replicate n '0').all isHexDigit = true := by
    intro n
    simp only [List.all_eq_true, List.mem_replicate]
    intro x hx
    rw [hx.2]
    decide
  split
  · simp only [List.all_append, List.all_cons, Bool.and_eq_true]
    refine ⟨all_sub (List.take_subset _ _) ?_, hc, ?_⟩
    · rw [List.all_append, hrep, hs]; rfl
    · split
      · refine all_sub (List.drop_subset _ _) ?_
        rw [List.all_append, hrep, hs]; rfl
      · rfl
  · simp only [List.all_append, List.all_cons, Bool.and_eq_true]
    refine ⟨all_sub (List.take_subset _ _) hs, hc, ?_⟩
    split
    · exact all_sub (List.drop_subset _ _) hs
    · rfl



theorem randomChar_89ab_mem (r : Nat) :
    randomChar (chars "89ab") r ∈ ['8', '9', 'a', 'b'] := by
  unfold randomChar
  have h4 : r % (chars "89ab").length < 4 := Nat.mod_lt _ (by decide)
  have : r % (chars "89ab").length = 0 ∨ r % (chars "89ab").length = 1 ∨
      r % (chars "89ab").length = 2 ∨ r % (chars "89ab").length = 3 := by omega
  rcases this with h | h | h | h <;> rw [h] <;> decide

theorem randomChar_89ab_hex (r : Nat) :
    isHexDigit (randomChar (chars "89ab") r) = true := by
  have h := randomChar_89ab_mem r
  simp only [List.mem_cons, List.mem_singleton, List.not_mem_nil, or_false] at h
  rcases h with h | h | h | h <;> rw [h] <;> decide

theorem applyMarkers_length {o : UUIDv9Options} {v : Char} {j : List Char}
    (h17 : 17 ≤ j.length) : (applyMarkers o v j).length = j.length := by
  unfold applyMarkers
  split
  · rw [setAt_length (by rw [setAt_length (by omega)]; omega),
      setAt_length (by omega)]
  · split
    · exact setAt_length (by omega) _
    · rfl

theorem applyMarkers_all_hex {o : UUIDv9Options} {v : Char} {j : List Char}
    (hv : isHexDigit v = true) (hj : j.all isHexDigit = true) :
    (applyMarkers o v j).all isHexDigit = true := by
  unfold applyMarkers
  split
  · refine setAt_all_hex hv (setAt_all_hex ?_ hj)
    split <;> decide
  · split
    · exact setAt_all_hex (by decide) hj
    · exact hj

theorem applyMarkers_getElem?_12_legacy {o : UUIDv9Options} {v : Char} {j : List Char}
    (hL : o.Legacy = true) (h17 : 17 ≤ j.length) :
    (applyMarkers o v j)[12]? =
      some (if resolveTs o.Timestamp = .tsFalse then '4' else '1') := by
  unfold applyMarkers
  rw [if_pos hL]
  rw [setAt_getElem?_lt (by rw [setAt_length (by omega)]; omega) (by omega)]
  exact setAt_getElem?_self (by omega) _

theorem applyMarkers_getElem?_16_legacy {o : UUIDv9Options} {v : Char} {j : List Char}
    (hL : o.Legacy = true) (h17 : 17 ≤ j.length) :
    (applyMarkers o v j)[16]? = some v := by
  unfold applyMarkers
  rw [if_pos hL]
  exact setAt_getElem?_self (by rw [setAt_length (by omega)]; omega) _

theorem applyMarkers_getElem?_12_version {o : UUIDv9Options} {v : Char} {j : List Char}
    (hL : o.Legacy = false) (hV : o.Version = true) (h17 : 17 ≤ j.length) :
    (applyMarkers o v j)[12]? = some '9' := by
  unfold applyMarkers
  rw [if_neg (by rw [hL]; exact Bool.false_ne_true), if_pos hV]
  exact setAt_getElem?_self (by omega) _

theorem applyMarkers_getElem?_none {o : UUIDv9Options} {v : Char} {j : List Char} {i : Nat}
    (hL : o.Legacy = false) (hV : o.Version = false) :
    (applyMarkers o v j)[i]? = j[i]? := by
  unfold applyMarkers
  rw [if_neg (by rw [hL]; exact Bool.false_ne_true),
    if_neg (by rw [hV]; exact Bool.false_ne_true)]

theorem applyMarkers_take {o : UUIDv9Options} {v : Char} {j : List Char} {i : Nat}
    (hi : i ≤ 12) (h17 : 17 ≤ j.length) :
    (applyMarkers o v j).take i = j.take i := by
  unfold applyMarkers
  split
  · rw [setAt_take (by rw [setAt_length (by omega)]; omega) (by omega),
      setAt_take (by omega) hi]
  · split
    · exact setAt_take (by omega) hi _
    · rfl

theorem fillLen_toNat (pLen cLen : Nat) (cs lg v : Bool) :
    (fillLen pLen cLen cs lg v).toNat =
      32 - pLen - cLen - (if cs then 2 else 0) - (if lg then 2 else if v then 1 else 0) := by
  cases cs <;> cases lg <;> cases v <;> simp only [fillLen, if_true, if_false,
    Bool.false_eq_true, Bool.true_eq_false] <;> split <;> omega

theorem joined_length (o : UUIDv9Options) (nowMs : Nat) (src : Nat → Nat) :
    (uuidv9Joined o nowMs src).length =
      o.Pfx.length + (uuidv9Center o.Timestamp nowMs).length +
        2 * ((fillLen o.Pfx.length (uuidv9Center o.Timestamp nowMs).length
          o.Checksum o.Legacy o.Version).toNat / 2) := by
  simp only [uuidv9Joined, List.length_append, List.length_map, randomBytes_length]

theorem joined_length_ge (o : UUIDv9Options) (nowMs : Nat) (src : Nat → Nat) :
    27 ≤ (uuidv9Joined o nowMs src).length := by
  rw [joined_length, fillLen_toNat]
  rcases o with ⟨p, ts, cs, v, lg⟩
  cases cs <;> cases lg <;> cases v <;> simp only [if_true, if_false,
    Bool.false_eq_true, Bool.true_eq_false] <;> omega

theorem pfxValid_hex {p : List Char} (h : pfxValid p = true) : p.all isHexDigit = true := by
  unfold pfxValid isBase16 at h
  rcases Bool.or_eq_true _ _ |>.mp h with h1 | h2
  · rw [List.isEmpty_iff.mp h1]
    rfl
  · exact (Bool.and_eq_true _ _ |>.mp
      (Bool.and_eq_true _ _ |>.mp h2).2).2

theorem joined_all_hex {o : UUIDv9Options} (hp : o.Pfx.all isHexDigit = true)
    (nowMs : Nat) (src : Nat → Nat) :
    (uuidv9Joined o nowMs src).all isHexDigit = true := by
  unfold uuidv9Joined
  simp only [List.all_append, Bool.and_eq_true]
  refine ⟨⟨?_, ?_⟩, ?_⟩
  · simp only [List.all_map, List.all_eq_true, Function.comp]
    intro x hx
    exact lowerHex_isHex (toLowerChar_hex (List.all_eq_true.mp hp x hx))
  · unfold uuidv9Center
    split
    · exact all_lower_imp_hex (natToHex_lower nowMs)
    · rfl
  · exact all_lower_imp_hex (randomBytes_lower _ _)



theorem pfxValid_ok {p : List Char} (h : pfxValid p = true) :
    (if p.isEmpty then Except.ok () else validatePfx p) = (Except.ok () : Except String Unit) := by
  unfold pfxValid at h
  rcases Bool.or_eq_true _ _ |>.mp h with h1 | h2
  · rw [if_pos h1]
  · obtain ⟨hlen, hb⟩ := Bool.and_eq_true _ _ |>.mp h2
    split
    · rfl
    · unfold validatePfx
      rw [if_neg (by have := of_decide_eq_true hlen; omega)]
      rw [if_neg (by rw [hb]; simp)]

theorem uuidv9_ok {o : UUIDv9Options} (ho : pfxValid o.Pfx = true) (nowMs : Nat)
    (src : Nat → Nat) (vsrc : Nat) :
    UUIDv9 o nowMs src vsrc = .ok (withDashes (uuidv9Core o nowMs src vsrc)) := by
  have hall : (applyMarkers o (randomChar (chars "89ab") vsrc)
      (uuidv9Joined o nowMs src)).all isHexDigit = true :=
    applyMarkers_all_hex (randomChar_89ab_hex vsrc) (joined_all_hex (pfxValid_hex ho) nowMs src)
  unfold UUIDv9 uuidv9Core
  rw [pfxValid_ok ho]
  by_cases hc : o.Checksum = true
  · simp only [hc, if_true, addDashes]
    rw [undash_withDashes (norm32_all_hex hall)]
    rw [withDashes_take34 (norm32_length _)]
  · simp only [hc, if_false, addDashes, Bool.false_eq_true]



theorem core_all_hex {o : UUIDv9Options} (ho : pfxValid o.Pfx = true) (nowMs : Nat)
    (src : Nat → Nat) (vsrc : Nat) :
    (uuidv9Core o nowMs src vsrc).all isHexDigit = true := by
  have hall : (applyMarkers o (randomChar (chars "89ab") vsrc)
      (uuidv9Joined o nowMs src)).all isHexDigit = true :=
    applyMarkers_all_hex (randomChar_89ab_hex vsrc) (joined_all_hex (pfxValid_hex ho) nowMs src)
  unfold uuidv9Core
  split
  · rw [List.all_append]
    rw [all_sub (List.take_subset _ _) (norm32_all_hex hall)]
    rw [all_lower_imp_hex (calcChecksum_lower _)]
    rfl
  · exact norm32_all_hex hall

theorem core_length (o : UUIDv9Options) (nowMs : Nat) (src : Nat → Nat) (vsrc : Nat) :
    (uuidv9Core o nowMs src vsrc).length = 32 := by
  unfold uuidv9Core
  split
  · rw [List.length_append, List.length_take, norm32_length, calcChecksum_length]
    norm_num
  · exact norm32_length _

/-- C1: for every configuration with checksum enabled and a valid prefix,
whatever the clock and entropy produce, the identifier returned by
`UUIDv9` satisfies `verifyChecksum` and `isValidUUIDv9` with the checksum
option set. -/
theorem c1_checksum_roundtrip {o : UUIDv9Options} (nowMs : Nat) (src : Nat → Nat)
    (vsrc : Nat) (ho : pfxValid o.Pfx = true) (hc : o.Checksum = true) {u : List Char}
    (hu : UUIDv9 o nowMs src vsrc = .ok u) :
    verifyChecksum u = some true ∧
      isValidUUIDv9 u (validateUUIDv9Options.mk true false) = some true := by
  rw [uuidv9_ok ho] at hu
  obtain rfl : withDashes (uuidv9Core o nowMs src vsrc) = u := by
    injection hu
  set core := uuidv9Core o nowMs src vsrc with hcore
  have hlen : core.length = 32 := core_length o nowMs src vsrc
  have hhex : core.all isHexDigit = true := core_all_hex ho nowMs src vsrc
  have hreg : uuidRegexMatch (withDashes core) = true := regex_withDashes hlen hhex
  set j := applyMarkers o (randomChar (chars "89ab") vsrc) (uuidv9Joined o nowMs src) with hj
  have hsplit : core = (norm32 j).take 30 ++ calcChecksum ((norm32 j).take 30) := by
    rw [hcore]
    unfold uuidv9Core
    rw [if_pos hc]
  have h30 : ((norm32 j).take 30).length = 30 := by
    rw [List.length_take, norm32_length]
    norm_num
  obtain ⟨c0, c1, hcs⟩ : ∃ c0 c1, calcChecksum ((norm32 j).take 30) = [c0, c1] := by
    have h2 := calcChecksum_length ((norm32 j).take 30)
    rcases hx : calcChecksum ((norm32 j).take 30) with _ | ⟨c0, _ | ⟨c1, _ | ⟨c2, l⟩⟩⟩ <;>
      rw [hx] at h2 <;> simp at h2
    exact ⟨c0, c1, rfl⟩
  have hg34 : (withDashes core).get? 34 = some c0 := by
    rw [List.get?_eq_getElem?, withDashes_getElem?_34 hlen, hsplit, hcs]
    rw [List.getElem?_append_right (by omega)]
    rw [h30]
    rfl
  have hg35 : (withDashes core).get? 35 = some c1 := by
    rw [List.get?_eq_getElem?, withDashes_getElem?_35 hlen, hsplit, hcs]
    rw [List.getElem?_append_right (by omega)]
    rw [h30]
    rfl
  have hund : undash (withDashes core) = core := undash_withDashes hhex
  have htake30 : core.take 30 = (norm32 j).take 30 := by
    rw [hsplit]
    exact List.take_append_of_le_length (by omega) |>.trans
      (by rw [List.take_take]; norm_num)
  have hver : verifyChecksum (withDashes core) = some true := by
    unfold verifyChecksum
    rw [hreg]
    simp only [Bool.not_true, Bool.false_eq_true, if_false, hund, hlen, hg34, hg35]
    rw [if_neg (by omega)]
    rw [htake30, hcs]
    simp
  refine ⟨hver, ?_⟩
  unfold isValidUUIDv9 isUUID
  rw [hreg]
  simp only [Bool.not_true, Bool.false_eq_true, if_false, hver]
  rfl



set_option maxRecDepth 8192 in
/-- Witness for C1: zero entropy, timestamp disabled, empty prefix; the
identifier produced is the all-zero UUID whose stored checksum "00" checks
out. -/
theorem c1_checksum_roundtrip_witness :
    verifyChecksum (chars "00000000-0000-0000-0000-000000000000") = some true ∧
      isValidUUIDv9 (chars "00000000-0000-0000-0000-000000000000")
        (validateUUIDv9Options.mk true false) = some true :=
  @c1_checksum_roundtrip ⟨[], .tsFalse, true, false, false⟩ 0 (fun _ => 0) 0
    (by decide) rfl (chars "00000000-0000-0000-0000-000000000000") rfl



theorem regex_length {u : List Char} (h : uuidRegexMatch u = true) : u.length = 36 := by
  simp only [uuidRegexMatch, Bool.and_eq_true, beq_iff_eq] at h
  exact h.1.1.1.1.1.1.1.1.1

/-- C9: the validator is total: for every input string and option
combination it returns `some` boolean (the modelled out-of-bounds
indexing is never reached), every string failing the structural check
yields `false`, and the structural check pins the length at 36 so the
fixed offsets are in bounds. -/
theorem c9_validator_total (u : List Char) (o : validateUUIDv9Options) :
    (isValidUUIDv9 u o).isSome = true ∧
      (uuidRegexMatch u = false → isValidUUIDv9 u o = some false) ∧
      (uuidRegexMatch u = true → u.length = 36) := by
  by_cases hr : uuidRegexMatch u = true
  · have l36 := regex_length hr
    obtain ⟨b, hb⟩ : ∃ b, verifyChecksum u = some b := by
      unfold verifyChecksum
      rw [hr]
      simp only [Bool.not_true, Bool.false_eq_true, if_false]
      split
      · exact ⟨false, rfl⟩
      · rw [List.get?_eq_getElem?, List.get?_eq_getElem?,
          List.getElem?_eq_getElem (by omega), List.getElem?_eq_getElem (by omega)]
        exact ⟨_, rfl⟩
    obtain ⟨c, hc⟩ : ∃ c, checkVersion u none = some c := by
      unfold checkVersion
      rw [List.get?_eq_getElem?, List.get?_eq_getElem?,
        List.getElem?_eq_getElem (by omega), List.getElem?_eq_getElem (by omega)]
      exact ⟨_, rfl⟩
    refine ⟨?_, fun hf => absurd (hf.symm.trans hr) Bool.false_ne_true, fun _ => l36⟩
    unfold isValidUUIDv9 isUUID
    rw [hr]
    rcases o with ⟨oc, ov⟩
    cases oc <;> cases ov <;>
      simp only [Bool.not_true, Bool.false_eq_true, if_false, hb, hc] <;>
      cases b <;> cases c <;> simp
  · have hf : uuidRegexMatch u = false := by
      rcases Bool.eq_false_or_eq_true (uuidRegexMatch u) with h | h
      · exact absurd h hr
      · exact h
    have : isValidUUIDv9 u o = some false := by
      unfold isValidUUIDv9 isUUID
      rw [hf]
      rfl
    exact ⟨by rw [this]; rfl, fun _ => this, fun ht => absurd ht hr⟩

/-- Witness for C9 at a malformed concrete input. -/
theorem c9_validator_total_witness :
    (isValidUUIDv9 (chars "not-a-real-uuid") (validateUUIDv9Options.mk true true)).isSome
        = true ∧
      isValidUUIDv9 (chars "not-a-real-uuid") (validateUUIDv9Options.mk true true)
        = some false :=
  ⟨(c9_validator_total (chars "not-a-real-uuid") (validateUUIDv9Options.mk true true)).1,
    (c9_validator_total (chars "not-a-real-uuid")
      (validateUUIDv9Options.mk true true)).2.1 (by decide)⟩

/-- C6: after the structural check, the parameterless version check
accepts exactly a '9' at undashed offset 12, or a '1' or '4' there
together with a variant digit among 8, 9, a, b (either case) at undashed
offset 16. -/
theorem c6_version_nibbles {u : List Char} (h : uuidRegexMatch u = true) :
    checkVersion u none = some
      (((undash u).getD 12 ' ' == '9') ||
        ((((undash u).getD 12 ' ' == '1') || ((undash u).getD 12 ' ' == '4')) &&
          (chars "89abAB").contains ((undash u).getD 16 ' '))) := by
  obtain ⟨t, hlen, hhex, rfl⟩ := regex_structure h
  rw [undash_withDashes hhex]
  have h12 : t[12]? = some (t.getD 12 ' ') := by
    rw [List.getElem?_eq_getElem (by omega)]
    simp [List.getD_eq_getElem?_getD, List.getElem?_eq_getElem (show 12 < t.length by omega)]
  have h16 : t[16]? = some (t.getD 16 ' ') := by
    rw [List.getElem?_eq_getElem (by omega)]
    simp [List.getD_eq_getElem?_getD, List.getElem?_eq_getElem (show 16 < t.length by omega)]
  unfold checkVersion
  rw [List.get?_eq_getElem?, List.get?_eq_getElem?, withDashes_getElem?_14 hlen,
    withDashes_getElem?_19 hlen, h12, h16]

/-- Witness for C6: a version-marked candidate with nibble '9'. -/
theorem c6_version_nibbles_witness :
    checkVersion (chars "00000000-0000-9000-0000-000000000000") none = some
      (((undash (chars "00000000-0000-9000-0000-000000000000")).getD 12 ' ' == '9') ||
        ((((undash (chars "00000000-0000-9000-0000-000000000000")).getD 12 ' ' == '1') ||
            ((undash (chars "00000000-0000-9000-0000-000000000000")).getD 12 ' ' == '4')) &&
          (chars "89abAB").contains
            ((undash (chars "00000000-0000-9000-0000-000000000000")).getD 16 ' '))) :=
  c6_version_nibbles (by decide)



set_option maxRecDepth 16384 in
/-- C4 counterexample: a structurally valid candidate whose stored
checksum digits "0E" are the uppercase rendering of the recomputed
checksum "0e" — equal in value — yet the validator rejects it, because
the comparison is exact string equality against a lowercase rendering. -/
theorem c4_counterexample :
    uuidRegexMatch (chars "00000000-0000-0000-0000-00000000020E") = true ∧
      calcChecksum ((undash (chars "00000000-0000-0000-0000-00000000020E")).take 30) =
        chars "0e" ∧
      ((undash (chars "00000000-0000-0000-0000-00000000020E")).drop 30).map toLowerChar =
        chars "0e" ∧
      verifyChecksum (chars "00000000-0000-0000-0000-00000000020E") = some false := by
  refine ⟨by decide, by decide, by decide, by decide⟩

/-- C4 amended: after the structural check, the checksum check compares
the lowercase rendering of the recomputed CRC-8 to the stored digits
[30,32) of the stripped candidate by exact (case-sensitive) string
equality. -/
theorem c4_checksum_compare {u : List Char} (h : uuidRegexMatch u = true) :
    verifyChecksum u = some
      (calcChecksum ((undash u).take 30) == (undash u).drop 30) := by
  obtain ⟨t, hlen, hhex, rfl⟩ := regex_structure h
  rw [undash_withDashes hhex]
  have h30 : t[30]? = some (t.getD 30 ' ') := by
    rw [List.getElem?_eq_getElem (by omega)]
    simp [List.getD_eq_getElem?_getD, List.getElem?_eq_getElem (show 30 < t.length by omega)]
  have h31 : t[31]? = some (t.getD 31 ' ') := by
    rw [List.getElem?_eq_getElem (by omega)]
    simp [List.getD_eq_getElem?_getD, List.getElem?_eq_getElem (show 31 < t.length by omega)]
  have hd30 : t.drop 30 = [t.getD 30 ' ', t.getD 31 ' '] := by
    refine List.ext_getElem? fun i => ?_
    rw [List.getElem?_drop]
    match i with
    | 0 => simpa using h30
    | 1 => simpa using h31
    | n + 2 =>
      rw [List.getElem?_eq_none (by omega), List.getElem?_eq_none (by simp)]
  unfold verifyChecksum
  rw [h]
  simp only [Bool.not_true, Bool.false_eq_true, if_false]
  rw [undash_withDashes hhex]
  rw [if_neg (by omega)]
  rw [List.get?_eq_getElem?, List.get?_eq_getElem?, withDashes_getElem?_34 hlen,
    withDashes_getElem?_35 hlen, h30, h31, hd30]

/-- Witness for C4: at the lowercase variant of the counterexample the
exact comparison succeeds. -/
theorem c4_checksum_compare_witness :
    verifyChecksum (chars "00000000-0000-0000-0000-00000000020e") = some
      (calcChecksum ((undash (chars "00000000-0000-0000-0000-00000000020e")).take 30) ==
        (undash (chars "00000000-0000-0000-0000-00000000020e")).drop 30) :=
  c4_checksum_compare (by decide)



theorem xor_mul_two_mod (x y : Nat) :
    ((x ^^^ y) * 2) % 256 = ((x * 2) % 256) ^^^ ((y * 2) % 256) := by
  have h256 : (256 : Nat) = 2 ^ 8 := by norm_num
  have hmul : ∀ z : Nat, z * 2 = z <<< 1 := by
    intro z
    rw [Nat.shiftLeft_eq]
  apply Nat.eq_of_testBit_eq
  intro i
  rw [h256]
  simp only [Nat.testBit_mod_two_pow, Nat.testBit_xor, hmul, Nat.testBit_shiftLeft]
  generalize decide (i < 8) = p
  generalize decide (1 ≤ i) = q
  generalize x.testBit (i - 1) = a
  generalize y.testBit (i - 1) = b
  cases p <;> cases q <;> cases a <;> cases b <;> rfl

theorem div128_mod2_eq_testBit (z : Nat) : z / 128 % 2 = (z.testBit 7).toNat := by
  have h : (2 : Nat) ^ 7 = 128 := by norm_num
  rw [Nat.testBit_to_div_mod, h]
  rcases Nat.mod_two_eq_zero_or_one (z / 128) with hz | hz <;> rw [hz] <;> rfl

theorem xor_top_bit {x y : Nat} (hx : x < 256) (hy : y < 256) :
    ((x ^^^ y) / 128) % 2 = (x / 128 + y / 128) % 2 := by
  have ex : x / 128 = (x.testBit 7).toNat := by
    rw [← div128_mod2_eq_testBit]
    omega
  have ey : y / 128 = (y.testBit 7).toNat := by
    rw [← div128_mod2_eq_testBit]
    omega
  rw [div128_mod2_eq_testBit, ex, ey, Nat.testBit_xor]
  generalize x.testBit 7 = a
  generalize y.testBit 7 = b
  cases a <;> cases b <;> rfl

theorem crcShiftStep_lt (z : Nat) : crcShiftStep z < 256 := by
  unfold crcShiftStep
  split
  · exact @Nat.xor_lt_two_pow _ _ 8 (Nat.mod_lt _ (by norm_num)) (by norm_num)
  · exact Nat.mod_lt _ (by norm_num)

theorem refCrc8Bit_lt (u b : Nat) : refCrc8Bit u b < 256 := by
  unfold refCrc8Bit
  split
  · exact @Nat.xor_lt_two_pow _ _ 8 (Nat.mod_lt _ (by norm_num)) (by norm_num)
  · exact Nat.mod_lt _ (by norm_num)

theorem crc_shift_inv {u m : Nat} (hu : u < 256) (hm : m < 256) :
    crcShiftStep (u ^^^ m) = refCrc8Bit u (m / 128 % 2) ^^^ ((m * 2) % 256) := by
  have hxl : u ^^^ m < 256 := @Nat.xor_lt_two_pow _ _ 8 hu hm
  have htopeq : (u ^^^ m) / 128 % 2 = (u / 128 + m / 128 % 2) % 2 := by
    rw [xor_top_bit hu hm]
    omega
  have htop : (128 ≤ u ^^^ m) ↔ ((u / 128 + m / 128 % 2) % 2 = 1) := by
    rw [← htopeq]
    omega
  unfold crcShiftStep refCrc8Bit
  by_cases hc : 128 ≤ u ^^^ m
  · rw [if_pos hc, if_pos (htop.mp hc), xor_mul_two_mod]
    rw [Nat.xor_assoc, Nat.xor_comm ((m * 2) % 256) 7, ← Nat.xor_assoc]
  · rw [if_neg hc, if_neg (fun hh => hc (htop.mpr hh)), xor_mul_two_mod]



theorem crc8Update_eq_bits {crc b : Nat} (hcrc : crc < 256) (hb : b < 256) :
    crc8Update crc b = (byteBits b).foldl refCrc8Bit crc := by
  unfold crc8Update byteBits
  rw [show List.range 8 = [0, 1, 2, 3, 4, 5, 6, 7] from rfl]
  simp only [List.foldl_cons, List.foldl_nil]
  rw [@crc_shift_inv crc b hcrc hb]
  rw [@crc_shift_inv _ _ (refCrc8Bit_lt _ _) (Nat.mod_lt _ (by norm_num))]
  rw [show b * 2 % 256 / 128 % 2 = b / 64 % 2 from by omega,
    show b * 2 % 256 * 2 % 256 = b * 4 % 256 from by omega]
  rw [@crc_shift_inv _ _ (refCrc8Bit_lt _ _) (Nat.mod_lt _ (by norm_num))]
  rw [show b * 4 % 256 / 128 % 2 = b / 32 % 2 from by omega,
    show b * 4 % 256 * 2 % 256 = b * 8 % 256 from by omega]
  rw [@crc_shift_inv _ _ (refCrc8Bit_lt _ _) (Nat.mod_lt _ (by norm_num))]
  rw [show b * 8 % 256 / 128 % 2 = b / 16 % 2 from by omega,
    show b * 8 % 256 * 2 % 256 = b * 16 % 256 from by omega]
  rw [@crc_shift_inv _ _ (refCrc8Bit_lt _ _) (Nat.mod_lt _ (by norm_num))]
  rw [show b * 16 % 256 / 128 % 2 = b / 8 % 2 from by omega,
    show b * 16 % 256 * 2 % 256 = b * 32 % 256 from by omega]
  rw [@crc_shift_inv _ _ (refCrc8Bit_lt _ _) (Nat.mod_lt _ (by norm_num))]
  rw [show b * 32 % 256 / 128 % 2 = b / 4 % 2 from by omega,
    show b * 32 % 256 * 2 % 256 = b * 64 % 256 from by omega]
  rw [@crc_shift_inv _ _ (refCrc8Bit_lt _ _) (Nat.mod_lt _ (by norm_num))]
  rw [show b * 64 % 256 / 128 % 2 = b / 2 % 2 from by omega,
    show b * 64 % 256 * 2 % 256 = b * 128 % 256 from by omega]
  rw [@crc_shift_inv _ _ (refCrc8Bit_lt _ _) (Nat.mod_lt _ (by norm_num))]
  rw [show b * 128 % 256 / 128 % 2 = b % 2 from by omega,
    show b * 128 % 256 * 2 % 256 = 0 from by omega]
  rw [Nat.xor_zero]



theorem crc8Update_lt (crc b : Nat) : crc8Update crc b < 256 := by
  unfold crc8Update
  rw [show List.range 8 = [0, 1, 2, 3, 4, 5, 6, 7] from rfl]
  simp only [List.foldl_cons, List.foldl_nil]
  exact crcShiftStep_lt _

theorem foldl_crc8_lt (data : List Nat) : ∀ crc : Nat, crc < 256 →
    data.foldl crc8Update crc < 256 := by
  induction data with
  | nil => exact fun crc h => h
  | cons d rest ih =>
    intro crc _
    rw [List.foldl_cons]
    exact ih (crc8Update crc d) (crc8Update_lt crc d)

theorem foldl_crc_eq_bits (data : List Nat) : ∀ crc : Nat, crc < 256 →
    (∀ x ∈ data, x < 256) →
    data.foldl crc8Update crc = (data.flatMap byteBits).foldl refCrc8Bit crc := by
  induction data with
  | nil => intro crc _ _; simp
  | cons d rest ih =>
    intro crc hcrc hd
    rw [List.foldl_cons, List.flatMap_cons, List.foldl_append]
    rw [← crc8Update_eq_bits hcrc (hd d (List.mem_cons_self _ _))]
    exact ih (crc8Update crc d) (crc8Update_lt crc d)
      (fun x hx => hd x (List.mem_cons_of_mem _ hx))

theorem hexVal_lt (c : Char) : hexVal c < 16 := by
  unfold hexVal
  split
  · next h =>
    simp only [Bool.and_eq_true, decide_eq_true_eq] at h
    omega
  · split
    · next h =>
      simp only [Bool.and_eq_true, decide_eq_true_eq] at h
      omega
    · split
      · next h =>
        simp only [Bool.and_eq_true, decide_eq_true_eq] at h
        omega
      · norm_num

theorem decode_ok : ∀ s : List Char, s.length % 2 = 0 → s.all isHexDigit = true →
    ∃ d, decodeHexPairs s = some d ∧ ∀ x ∈ d, x < 256
  | [] => fun _ _ => ⟨[], rfl, by simp⟩
  | [_] => fun h _ => by simp at h
  | a :: b :: rest => fun h hall => by
    have hrest : rest.length % 2 = 0 := by
      simp only [List.length_cons] at h
      omega
    simp only [List.all_cons, Bool.and_eq_true] at hall
    obtain ⟨ha, hb, hrall⟩ := hall
    obtain ⟨d, hd, hlt⟩ := decode_ok rest hrest hrall
    refine ⟨(hexVal a * 16 + hexVal b) :: d, ?_, ?_⟩
    · unfold decodeHexPairs
      rw [ha, hb]
      simp only [Bool.and_self, if_true, hd]
      rfl
    · intro x hx
      rcases List.mem_cons.mp hx with hx | hx
      · have h1 := hexVal_lt a
        have h2 := hexVal_lt b
        omega
      · exact hlt x hx

theorem hexVal_toLower {c : Char} (h : isHexDigit c = true) :
    hexVal (toLowerChar c) = hexVal c := by
  unfold toLowerChar
  by_cases hc : (65 ≤ c.toNat && c.toNat ≤ 90) = true
  · rw [if_pos hc]
    simp only [Bool.and_eq_true, decide_eq_true_eq] at hc
    simp only [isHexDigit, Bool.or_eq_true, Bool.and_eq_true, decide_eq_true_eq] at h
    have hr : 65 ≤ c.toNat ∧ c.toNat ≤ 70 := by omega
    have ht : (Char.ofNat (c.toNat + 32)).toNat = c.toNat + 32 :=
      toNat_ofNat_small _ (by omega)
    unfold hexVal
    rw [ht]
    rw [if_neg (by simp only [Bool.and_eq_true, decide_eq_true_eq]; omega),
      if_pos (by simp only [Bool.and_eq_true, decide_eq_true_eq]; omega),
      if_neg (by simp only [Bool.and_eq_true, decide_eq_true_eq]; omega),
      if_neg (by simp only [Bool.and_eq_true, decide_eq_true_eq]; omega),
      if_pos (by simp only [Bool.and_eq_true, decide_eq_true_eq]; omega)]
    omega
  · rw [if_neg hc]

theorem decode_map_lower : ∀ s : List Char, s.all isHexDigit = true →
    decodeHexPairs (s.map toLowerChar) = decodeHexPairs s
  | [] => fun _ => rfl
  | [a] => fun _ => rfl
  | a :: b :: rest => fun hall => by
    simp only [List.all_cons, Bool.and_eq_true] at hall
    obtain ⟨ha, hb, hrall⟩ := hall
    show decodeHexPairs (toLowerChar a :: toLowerChar b :: rest.map toLowerChar) = _
    unfold decodeHexPairs
    rw [ha, hb, lowerHex_isHex (toLowerChar_hex ha), lowerHex_isHex (toLowerChar_hex hb)]
    simp only [Bool.and_self, if_true]
    rw [decode_map_lower rest hrall, hexVal_toLower ha, hexVal_toLower hb]

/-- C5: on every even-length hex string, `calcChecksum` agrees with the
reference bit-serial CRC-8 (polynomial 0x07, seed 0x00, MSB-first, no
reflection, no final xor) over the bytes decoded from the hex digit
pairs; the result is exactly two lowercase hex digits, and the input is
consumed by binary value, not by character (lowercasing it changes
nothing). -/
theorem c5_calcChecksum_ref {s : List Char} (heven : s.length % 2 = 0)
    (hhex : s.all isHexDigit = true) :
    calcChecksum s = refCalcChecksum s ∧ (calcChecksum s).length = 2 ∧
      (calcChecksum s).all isLowerHexDigit = true ∧
      calcChecksum (s.map toLowerChar) = calcChecksum s := by
  obtain ⟨d, hd, hlt⟩ := decode_ok s heven hhex
  refine ⟨?_, calcChecksum_length s, calcChecksum_lower s, ?_⟩
  · unfold calcChecksum refCalcChecksum
    rw [hd]
    show toHex2 (d.foldl crc8Update 0 % 256) = toHex2 (refCrc8 d)
    rw [Nat.mod_eq_of_lt (foldl_crc8_lt d 0 (by norm_num))]
    unfold refCrc8
    rw [foldl_crc_eq_bits d 0 (by norm_num) hlt]
  · unfold calcChecksum
    rw [decode_map_lower s hhex]

/-- Witness for C5: the classic check-value input, the ASCII digits
"123456789" written as hex pairs; both sides give "f4". -/
theorem c5_calcChecksum_ref_witness :
    calcChecksum (chars "313233343536373839") = refCalcChecksum (chars "313233343536373839") ∧
      (calcChecksum (chars "313233343536373839")).length = 2 ∧
      (calcChecksum (chars "313233343536373839")).all isLowerHexDigit = true ∧
      calcChecksum ((chars "313233343536373839").map toLowerChar) =
        calcChecksum (chars "313233343536373839") :=
  c5_calcChecksum_ref (by decide) (by decide)



theorem core_getElem?_low {o : UUIDv9Options} {nowMs : Nat} {src : Nat → Nat} {vsrc : Nat}
    {i : Nat} (hi : i < 27) :
    (uuidv9Core o nowMs src vsrc)[i]? =
      (applyMarkers o (randomChar (chars "89ab") vsrc) (uuidv9Joined o nowMs src))[i]? := by
  have h27 : 27 ≤ (applyMarkers o (randomChar (chars "89ab") vsrc)
      (uuidv9Joined o nowMs src)).length := by
    rw [applyMarkers_length (le_trans (by norm_num) (joined_length_ge o nowMs src))]
    exact joined_length_ge o nowMs src
  unfold uuidv9Core
  split
  · rw [List.getElem?_append_left (by
      rw [List.length_take, norm32_length]
      omega)]
    rw [List.getElem?_take_of_lt (by omega)]
    exact norm32_getElem? (by omega) (by omega)
  · exact norm32_getElem? (by omega) (by omega)

theorem core_take_small {o : UUIDv9Options} {nowMs : Nat} {src : Nat → Nat} {vsrc : Nat}
    {i : Nat} (hi : i ≤ 12) :
    (uuidv9Core o nowMs src vsrc).take i = (uuidv9Joined o nowMs src).take i := by
  have hj27 : 27 ≤ (uuidv9Joined o nowMs src).length := joined_length_ge o nowMs src
  have h17 : 17 ≤ (uuidv9Joined o nowMs src).length := by omega
  have h27 : 27 ≤ (applyMarkers o (randomChar (chars "89ab") vsrc)
      (uuidv9Joined o nowMs src)).length := by
    rw [applyMarkers_length h17]
    exact hj27
  unfold uuidv9Core
  split
  · rw [List.take_append_of_le_length (by
      rw [List.length_take, norm32_length]
      omega)]
    rw [List.take_take, Nat.min_eq_left (by omega)]
    rw [norm32_take (by omega) (by omega)]
    exact applyMarkers_take hi h17
  · rw [norm32_take (by omega) (by omega)]
    exact applyMarkers_take hi h17

/-- C7: with Legacy set (whether or not Version is also set), the marker
nibble at undashed offset 12 is '1' unless the timestamp option is
`false`, in which case it is '4', and the variant nibble at undashed
offset 16 is one of 8, 9, a, b; with Legacy unset and Version set, the
nibble at offset 12 is '9'. -/
theorem c7_marker_nibbles {o : UUIDv9Options} (nowMs : Nat) (src : Nat → Nat) (vsrc : Nat)
    (ho : pfxValid o.Pfx = true) {u : List Char}
    (hu : UUIDv9 o nowMs src vsrc = .ok u) :
    (o.Legacy = true →
      (undash u).getD 12 ' ' = (if o.Timestamp = .tsFalse then '4' else '1') ∧
        (undash u).getD 16 ' ' ∈ ['8', '9', 'a', 'b']) ∧
    (o.Legacy = false → o.Version = true → (undash u).getD 12 ' ' = '9') := by
  rw [uuidv9_ok ho] at hu
  obtain rfl : withDashes (uuidv9Core o nowMs src vsrc) = u := by injection hu
  rw [undash_withDashes (core_all_hex ho nowMs src vsrc)]
  have h17 : 17 ≤ (uuidv9Joined o nowMs src).length :=
    le_trans (by norm_num) (joined_length_ge o nowMs src)
  constructor
  · intro hL
    constructor
    · rw [List.getD_eq_getElem?_getD, core_getElem?_low (by norm_num),
        applyMarkers_getElem?_12_legacy hL h17]
      cases o.Timestamp <;> simp [resolveTs]
    · rw [List.getD_eq_getElem?_getD, core_getElem?_low (by norm_num),
        applyMarkers_getElem?_16_legacy hL h17]
      exact randomChar_89ab_mem vsrc
  · intro hL hV
    rw [List.getD_eq_getElem?_getD, core_getElem?_low (by norm_num),
      applyMarkers_getElem?_12_version hL hV h17]
    rfl



set_option maxRecDepth 8192 in
/-- Witness for C7: a legacy identifier generated with the default
timestamp carries marker '1' and variant '8' (zero entropy draw). -/
theorem c7_marker_nibbles_witness :
    (undash (chars "10000000-0000-1000-8000-000000000000")).getD 12 ' ' = '1' ∧
      (undash (chars "10000000-0000-1000-8000-000000000000")).getD 16 ' ' ∈
        ['8', '9', 'a', 'b'] := by
  have h := (@c7_marker_nibbles ⟨[], .tsNil, false, false, true⟩ 1 (fun _ => 0) 0
    (by decide) (chars "10000000-0000-1000-8000-000000000000") rfl).1 rfl
  simpa using h



theorem pfxValid_le8 {p : List Char} (h : pfxValid p = true) : p.length ≤ 8 := by
  unfold pfxValid at h
  rcases Bool.or_eq_true _ _ |>.mp h with h1 | h2
  · rw [List.isEmpty_iff.mp h1]
    norm_num
  · exact of_decide_eq_true (Bool.and_eq_true _ _ |>.mp h2).1

/-- C8: a non-empty prefix longer than eight characters or containing a
non-hex character makes `UUIDv9` return the prefix error and no
identifier; a prefix of zero to eight hex digits never produces a prefix
error, and the identifier starts with the lowercased prefix. -/
theorem c8_pfx_validation (p : List Char) (ts : GoTimestamp) (cs v lg : Bool)
    (nowMs : Nat) (src : Nat → Nat) (vsrc : Nat) :
    (p ≠ [] → (8 < p.length ∨ p.all isHexDigit = false) →
      ∃ e, UUIDv9 ⟨p, ts, cs, v, lg⟩ nowMs src vsrc = .error e) ∧
    (p.length ≤ 8 → p.all isHexDigit = true →
      ∃ u, UUIDv9 ⟨p, ts, cs, v, lg⟩ nowMs src vsrc = .ok u ∧
        (undash u).take p.length = p.map toLowerChar) := by
  constructor
  · intro hne hbad
    have hemp : p.isEmpty = false := by
      rcases p with _ | ⟨a, q⟩
      · exact absurd rfl hne
      · rfl
    unfold UUIDv9
    rw [if_neg (by rw [hemp]; exact Bool.false_ne_true)]
    unfold validatePfx
    by_cases hlen : 8 < p.length
    · rw [if_pos hlen]
      exact ⟨_, rfl⟩
    · rcases hbad with hbad | hbad
      · exact absurd hbad hlen
      · rw [if_neg hlen]
        rw [if_pos (by
          unfold isBase16
          rw [hemp, hbad]
          rfl)]
        exact ⟨_, rfl⟩
  · intro hlen hall
    have ho : pfxValid p = true := by
      unfold pfxValid isBase16
      rw [decide_eq_true hlen, hall]
      cases p.isEmpty <;> rfl
    refine ⟨withDashes (uuidv9Core ⟨p, ts, cs, v, lg⟩ nowMs src vsrc),
      uuidv9_ok ho nowMs src vsrc, ?_⟩
    rw [undash_withDashes (core_all_hex ho nowMs src vsrc)]
    rw [core_take_small (by omega)]
    show (uuidv9Joined ⟨p, ts, cs, v, lg⟩ nowMs src).take p.length = _
    unfold uuidv9Joined
    rw [List.take_append_of_le_length (by
      simp only [List.length_append, List.length_map]
      omega)]
    rw [List.take_append_of_le_length (by simp only [List.length_map]; omega)]
    exact List.take_of_length_le (by simp only [List.length_map]; omega)

set_option maxRecDepth 8192 in
/-- Witness for C8: a nine-digit prefix is rejected; the prefix "A1" is
accepted and appears lowercased at the front of the identifier. -/
theorem c8_pfx_validation_witness :
    (∃ e, UUIDv9 ⟨chars "123456789", .tsNil, false, false, false⟩ 0 (fun _ => 0) 0 =
        .error e) ∧
      ∃ u, UUIDv9 ⟨chars "A1", .tsFalse, false, false, false⟩ 0 (fun _ => 0) 0 = .ok u ∧
        (undash u).take (chars "A1").length = (chars "A1").map toLowerChar :=
  ⟨(c8_pfx_validation (chars "123456789") .tsNil false false false 0 (fun _ => 0) 0).1
      (by decide) (Or.inl (by decide)),
    (c8_pfx_validation (chars "A1") .tsFalse false false false 0 (fun _ => 0) 0).2
      (by decide) (by decide)⟩



/-- C2 counterexample: with an empty prefix, timestamp disabled and
checksum on — a valid configuration — the concatenation
prefix + center + randomFill has 30 hex digits, not 32, and the
right-pad step of `addDashes` is exercised. -/
theorem c2_counterexample :
    pfxValid ([] : List Char) = true ∧
      (uuidv9Joined ⟨[], .tsFalse, true, false, false⟩ 0 (fun _ => 0)).length = 30 ∧
      norm32 (uuidv9Joined ⟨[], .tsFalse, true, false, false⟩ 0 (fun _ => 0)) ≠
        uuidv9Joined ⟨[], .tsFalse, true, false, false⟩ 0 (fun _ => 0) := by
  refine ⟨by decide, by decide, by decide⟩

/-- C2 amended: the concatenation prefix + center + randomFill has
32 − (2 if checksum) − (2 if legacy else 1 if version) − (1 if the
computed fill length is odd) hex digits; the random fill always has an
even count; the total never exceeds 32, so `addDashes` never truncates,
and it right-pads with '0' exactly when markers or checksum are reserved
or the fill length is odd. -/
theorem c2_joined_length {o : UUIDv9Options} (nowMs : Nat) (src : Nat → Nat)
    (hp : pfxValid o.Pfx = true)
    (hcen : (uuidv9Center o.Timestamp nowMs).length ≤ 13) :
    (randomBytes ((fillLen o.Pfx.length (uuidv9Center o.Timestamp nowMs).length
        o.Checksum o.Legacy o.Version).toNat / 2) src).length % 2 = 0 ∧
      (uuidv9Joined o nowMs src).length =
        32 - adjLen o - (fillLen o.Pfx.length (uuidv9Center o.Timestamp nowMs).length
          o.Checksum o.Legacy o.Version).toNat % 2 ∧
      (uuidv9Joined o nowMs src).length ≤ 32 ∧
      norm32 (uuidv9Joined o nowMs src) = uuidv9Joined o nowMs src ++
        List.replicate (32 - (uuidv9Joined o nowMs src).length) '0' := by
  rcases o with ⟨p, ts, cs, v, lg⟩
  dsimp only at hp hcen ⊢
  have hp8 := pfxValid_le8 hp
  have hL := fillLen_toNat p.length (uuidv9Center ts nowMs).length cs lg v
  have hlen := joined_length ⟨p, ts, cs, v, lg⟩ nowMs src
  dsimp only at hlen
  have hrb := randomBytes_length ((fillLen p.length
    (uuidv9Center ts nowMs).length cs lg v).toNat / 2) src
  have hle : (uuidv9Joined ⟨p, ts, cs, v, lg⟩ nowMs src).length ≤ 32 := by
    rw [hlen]
    cases cs <;> cases v <;> cases lg <;>
      simp only [if_true, if_false, Bool.false_eq_true, Bool.true_eq_false] at hL ⊢ <;>
      omega
  refine ⟨by rw [hrb]; omega, ?_, hle, norm32_of_le hle⟩
  rw [hlen]
  unfold adjLen
  dsimp only
  cases cs <;> cases v <;> cases lg <;>
    simp only [if_true, if_false, Bool.false_eq_true, Bool.true_eq_false] at hL hcen ⊢ <;>
    omega

set_option maxRecDepth 8192 in
/-- Witness for C2 amended: prefix "ab", current time 255 ms (center
"ff"), checksum and version on: the concatenation has 28 digits and the
pad restores 32. -/
theorem c2_joined_length_witness :
    (randomBytes ((fillLen (chars "ab").length
        (uuidv9Center .tsTrue 255).length true false true).toNat / 2)
      (fun _ => 0)).length % 2 = 0 ∧
      (uuidv9Joined ⟨chars "ab", .tsTrue, true, true, false⟩ 255 (fun _ => 0)).length =
        32 - adjLen ⟨chars "ab", .tsTrue, true, true, false⟩ -
          (fillLen (chars "ab").length (uuidv9Center .tsTrue 255).length
            true false true).toNat % 2 ∧
      (uuidv9Joined ⟨chars "ab", .tsTrue, true, true, false⟩ 255 (fun _ => 0)).length ≤ 32 ∧
      norm32 (uuidv9Joined ⟨chars "ab", .tsTrue, true, true, false⟩ 255 (fun _ => 0)) =
        uuidv9Joined ⟨chars "ab", .tsTrue, true, true, false⟩ 255 (fun _ => 0) ++
          List.replicate
            (32 - (uuidv9Joined ⟨chars "ab", .tsTrue, true, true, false⟩ 255
              (fun _ => 0)).length) '0' :=
  @c2_joined_length ⟨chars "ab", .tsTrue, true, true, false⟩ 255 (fun _ => 0)
    (by decide) (by decide)

/-- C3: the code only honours the boolean readings of the timestamp
option — an explicit integer or instant value is ignored and produces an
empty time component, exactly as `false` does, contradicting the claim
(and the source's own doc comment) that the center is derived from the
supplied value; absent or `true` use the current time. -/
theorem c3_timestamp_ignored (n : Int) (nowMs : Nat) :
    uuidv9Center (.tsInt n) nowMs = [] ∧
      uuidv9Center (.tsTime n) nowMs = [] ∧
      uuidv9Center .tsFalse nowMs = [] ∧
      uuidv9Center .tsNil nowMs = natToHex nowMs ∧
      uuidv9Center .tsTrue nowMs = natToHex nowMs :=
  ⟨rfl, rfl, rfl, rfl, rfl⟩



/-- C10: whenever the computed fill length is odd, the random suffix has
one digit fewer (integer division in `randomBytes`), and with checksum
off the final undashed digit of the identifier is the deterministic '0'
supplied by the right-pad of `addDashes`; in particular with Version on
and checksum off the last digit is always '0'. -/
theorem c10_trailing_zero {o : UUIDv9Options} (nowMs : Nat) (src : Nat → Nat) (vsrc : Nat)
    (hp : pfxValid o.Pfx = true)
    (hcen : (uuidv9Center o.Timestamp nowMs).length ≤ 13) :
    ((fillLen o.Pfx.length (uuidv9Center o.Timestamp nowMs).length o.Checksum o.Legacy
        o.Version).toNat % 2 = 1 →
      (randomBytes ((fillLen o.Pfx.length (uuidv9Center o.Timestamp nowMs).length
          o.Checksum o.Legacy o.Version).toNat / 2) src).length =
        (fillLen o.Pfx.length (uuidv9Center o.Timestamp nowMs).length o.Checksum o.Legacy
          o.Version).toNat - 1) ∧
      (o.Checksum = false →
        (fillLen o.Pfx.length (uuidv9Center o.Timestamp nowMs).length o.Checksum o.Legacy
          o.Version).toNat % 2 = 1 →
        ∀ u, UUIDv9 o nowMs src vsrc = .ok u → (undash u).getD 31 ' ' = '0') ∧
      (o.Checksum = false → o.Version = true → o.Legacy = false →
        ∀ u, UUIDv9 o nowMs src vsrc = .ok u → (undash u).getD 31 ' ' = '0') := by
  rcases o with ⟨p, ts, cs, v, lg⟩
  dsimp only at hp hcen ⊢
  have hp8 := pfxValid_le8 hp
  have hL := fillLen_toNat p.length (uuidv9Center ts nowMs).length cs lg v
  have hlen := joined_length ⟨p, ts, cs, v, lg⟩ nowMs src
  dsimp only at hlen
  have hrb := randomBytes_length ((fillLen p.length
    (uuidv9Center ts nowMs).length cs lg v).toNat / 2) src
  have h17 : 17 ≤ (uuidv9Joined ⟨p, ts, cs, v, lg⟩ nowMs src).length :=
    le_trans (by norm_num) (joined_length_ge _ nowMs src)
  have key : cs = false → (uuidv9Joined ⟨p, ts, cs, v, lg⟩ nowMs src).length ≤ 31 →
      ∀ u, UUIDv9 ⟨p, ts, cs, v, lg⟩ nowMs src vsrc = .ok u →
        (undash u).getD 31 ' ' = '0' := by
    intro hc h31 u hu
    rw [uuidv9_ok hp nowMs src vsrc] at hu
    obtain rfl : withDashes (uuidv9Core ⟨p, ts, cs, v, lg⟩ nowMs src vsrc) = u := by
      injection hu
    rw [undash_withDashes (core_all_hex hp nowMs src vsrc)]
    have hcore : uuidv9Core ⟨p, ts, cs, v, lg⟩ nowMs src vsrc =
        norm32 (applyMarkers ⟨p, ts, cs, v, lg⟩ (randomChar (chars "89ab") vsrc)
          (uuidv9Joined ⟨p, ts, cs, v, lg⟩ nowMs src)) := by
      unfold uuidv9Core
      rw [if_neg (by dsimp only; rw [hc]; exact Bool.false_ne_true)]
    rw [hcore]
    have hjl : (applyMarkers ⟨p, ts, cs, v, lg⟩ (randomChar (chars "89ab") vsrc)
        (uuidv9Joined ⟨p, ts, cs, v, lg⟩ nowMs src)).length ≤ 31 := by
      rw [applyMarkers_length h17]
      exact h31
    rw [norm32_of_le (by omega), List.getD_eq_getElem?_getD,
      List.getElem?_append_right (by omega), List.getElem?_replicate_of_lt (by omega)]
    rfl
  refine ⟨by rw [hrb]; omega, ?_, ?_⟩
  · intro hc hodd u hu
    subst hc
    refine key rfl ?_ u hu
    rw [hlen]
    cases v <;> cases lg <;>
      simp only [if_true, if_false, Bool.false_eq_true, Bool.true_eq_false] at hL ⊢ <;>
      omega
  · intro hc hv hl u hu
    subst hc
    subst hv
    subst hl
    refine key rfl ?_ u hu
    rw [hlen]
    simp only [if_true, if_false, Bool.false_eq_true, Bool.true_eq_false] at hL ⊢
    omega

set_option maxRecDepth 8192 in
/-- Witness for C10: default-like configurations at 1 ms: fill length 31
is odd, the suffix has 30 digits, and the identifiers end in the padded
'0', also with the version marker. -/
theorem c10_trailing_zero_witness :
    (randomBytes ((fillLen ([] : List Char).length (uuidv9Center .tsTrue 1).length
        false false false).toNat / 2) (fun _ => 0)).length =
      (fillLen ([] : List Char).length (uuidv9Center .tsTrue 1).length
        false false false).toNat - 1 ∧
      (undash (chars "10000000-0000-0000-0000-000000000000")).getD 31 ' ' = '0' ∧
      (undash (chars "10000000-0000-9000-0000-000000000000")).getD 31 ' ' = '0' :=
  ⟨(@c10_trailing_zero ⟨[], .tsTrue, false, false, false⟩ 1 (fun _ => 0) 0
      (by decide) (by decide)).1 (by decide),
    (@c10_trailing_zero ⟨[], .tsTrue, false, false, false⟩ 1 (fun _ => 0) 0
      (by decide) (by decide)).2.1 rfl (by decide)
      (chars "10000000-0000-0000-0000-000000000000") rfl,
    (@c10_trailing_zero ⟨[], .tsTrue, false, true, false⟩ 1 (fun _ => 0) 0
      (by decide) (by decide)).2.2 rfl rfl rfl
      (chars "10000000-0000-9000-0000-000000000000") rfl⟩

end UUIDv9Go
